import Mathlib

/-!
# Verification of the meeting-video captioning pipeline

A shallow embedding, in Lean 4, of the algorithmic core of the
`meeting_captioning` package: transcript segmentation
(`transcription/segmenter.py`), scene detection and frame-difference
scoring (`processing/scene_detector.py`), subtitle rendering and
filename sanitization (`processing/caption_generator.py`), the time
codec (`utils/time_utils.py`), the job registry
(`web/flask_app.py`), and the pipeline orchestrator
(`main_app.py`).

Python floats are embedded as exact rationals (`ℚ`); values that the
code computes with square roots live in `ℝ`.  Strings are embedded as
Lean `String` / `List Char`; machine-level concerns (file handles,
subprocesses) become explicit data: stage outcomes become `Except`
values and the file system becomes the list of paths written so far.
-/

namespace MeetingCaptioning

/-! ## Transcript segmentation (`transcription/segmenter.py`)

`TranscriptionSegment` is the dataclass from `transcription/transcriber.py`
(fields `id`, `start`, `end`, `text`, `confidence`). `TranscriptSection`
is the dataclass from `transcription/segmenter.py`; its `summary` /
`key_points` enrichment is not used by `segment_by_pauses` and is
omitted from the record. -/

structure TranscriptionSegment where
  id : ℕ
  start : ℚ
  «end» : ℚ
  text : String
  confidence : ℚ := 1
deriving Repr, DecidableEq

structure TranscriptSection where
  section_number : ℕ
  start_time : ℚ
  end_time : ℚ
  segments : List TranscriptionSegment
deriving Repr, DecidableEq

/-- The `should_break` flag computed by one iteration of
`TranscriptionSegmenter.segment_by_pauses` (segmenter.py lines 132-143):
a pause to the next segment of at least `pause_threshold` (checked only
when a next segment exists), or an elapsed section duration of at least
`max_section_duration`. -/
def shouldBreakSection (pause_threshold max_section_duration : ℚ)
    (segment : TranscriptionSegment) (rest : List TranscriptionSegment)
    (section_start_time : ℚ) : Bool :=
  (match rest.head? with
   | some nxt => decide (nxt.start - segment.«end» ≥ pause_threshold)
   | none => false)
  || decide (segment.«end» - section_start_time ≥ max_section_duration)

/-- The loop of `TranscriptionSegmenter.segment_by_pauses`
(segmenter.py lines 128-159), written as structural recursion over the
remaining segments.  State threaded through the loop: the segments
accumulated for the open section (`cur`), the running section number,
and the open section's start time.  At each step the current segment is
appended to `cur`; the section is closed when `should_break` holds or
at the last segment (`i == len(segments) - 1`, i.e. `rest = []`).  The
closed section's `end_time` is `current_section_segments[-1].end`,
i.e. the `end` of the segment just appended. -/
def segmentByPausesLoop (pt md : ℚ) :
    List TranscriptionSegment → List TranscriptionSegment → ℕ → ℚ →
    List TranscriptSection
  | [], _cur, _n, _st => []
  | segment :: rest, cur, section_number, section_start_time =>
    let cur2 := cur ++ [segment]
    if shouldBreakSection pt md segment rest section_start_time || rest.isEmpty then
      { section_number := section_number
        start_time := section_start_time
        end_time := segment.«end»
        segments := cur2 } ::
        segmentByPausesLoop pt md rest [] (section_number + 1)
          (match rest.head? with | some nxt => nxt.start | none => section_start_time)
    else
      segmentByPausesLoop pt md rest cur2 section_number section_start_time

/-- `TranscriptionSegmenter.segment_by_pauses` (segmenter.py lines
105-162): empty input returns `[]`; otherwise the loop starts with an
empty open section at `segments[0].start`, section number 1. -/
def segment_by_pauses (pause_threshold max_section_duration : ℚ)
    (segments : List TranscriptionSegment) : List TranscriptSection :=
  match segments with
  | [] => []
  | s0 :: _ =>
    segmentByPausesLoop pause_threshold max_section_duration segments [] 1 s0.start

/-- Invariant of the loop: the fragments of the emitted sections,
concatenated, are exactly the pending open-section fragments followed
by the remaining input. -/
theorem segmentByPausesLoop_flatten (pt md : ℚ) :
    ∀ (segs cur : List TranscriptionSegment) (n : ℕ) (st : ℚ),
      segs ≠ [] →
      ((segmentByPausesLoop pt md segs cur n st).map TranscriptSection.segments).flatten
        = cur ++ segs := by
  intro segs
  induction segs with
  | nil => intro _ _ _ h; exact absurd rfl h
  | cons segment rest ih =>
    intro cur n st _
    rw [segmentByPausesLoop]
    rcases eq_or_ne rest [] with hr | hr
    · subst hr
      simp [segmentByPausesLoop]
    · have hne : rest.isEmpty = false := by
        simpa [List.isEmpty_iff] using hr
      by_cases hb : shouldBreakSection pt md segment rest st
      · simp only [hb, hne, Bool.true_or, if_true, List.map_cons, List.flatten_cons]
        rw [ih [] (n + 1) _ hr]
        simp
      · simp only [Bool.not_eq_true] at hb
        simp only [hb, hne, Bool.or_self, Bool.false_eq_true, if_false]
        rw [ih (cur ++ [segment]) n st hr]
        simp

/-- Invariant of the loop: every emitted section has a non-empty
fragment list. -/
theorem segmentByPausesLoop_nonempty (pt md : ℚ) :
    ∀ (segs cur : List TranscriptionSegment) (n : ℕ) (st : ℚ),
      ∀ sec ∈ segmentByPausesLoop pt md segs cur n st, sec.segments ≠ [] := by
  intro segs
  induction segs with
  | nil => intro _ _ _ sec h; simp [segmentByPausesLoop] at h
  | cons segment rest ih =>
    intro cur n st sec hsec
    rw [segmentByPausesLoop] at hsec
    by_cases hc : (shouldBreakSection pt md segment rest st || rest.isEmpty) = true
    · rw [if_pos hc] at hsec
      rcases List.mem_cons.mp hsec with h | h
      · subst h; simp
      · exact ih [] (n + 1) _ sec h
    · rw [if_neg hc] at hsec
      exact ih (cur ++ [segment]) n st sec hsec

/-- C2: For every input fragment sequence, `segment_by_pauses` returns
sections whose fragment lists, concatenated in section order, reproduce
the input sequence exactly; every returned section is non-empty; and an
empty input yields an empty section list. -/
theorem segment_by_pauses_partitions (pt md : ℚ)
    (segments : List TranscriptionSegment) :
    ((segment_by_pauses pt md segments).map TranscriptSection.segments).flatten
        = segments ∧
    (∀ sec ∈ segment_by_pauses pt md segments, sec.segments ≠ []) ∧
    (segments = [] → segment_by_pauses pt md segments = []) := by
  refine ⟨?_, ?_, ?_⟩
  · match segments with
    | [] => simp [segment_by_pauses]
    | s0 :: rest =>
      rw [segment_by_pauses]
      exact segmentByPausesLoop_flatten pt md (s0 :: rest) [] 1 s0.start (by simp)
  · match segments with
    | [] => simp [segment_by_pauses]
    | s0 :: rest =>
      rw [segment_by_pauses]
      exact segmentByPausesLoop_nonempty pt md (s0 :: rest) [] 1 s0.start
  · intro h; subst h; rfl

/-- C8: three fragments spanning [0,10], [10,20], [25,35], with
`pause_threshold = 2` and a large `max_section_duration`, produce
exactly two sections: `{a, b}` spanning [0,20] and `{c}` spanning
[25,35]. -/
theorem segment_by_pauses_scenario :
    segment_by_pauses 2 1000
      [⟨0, 0, 10, "a", 1⟩, ⟨1, 10, 20, "b", 1⟩, ⟨2, 25, 35, "c", 1⟩]
      = [⟨1, 0, 20, [⟨0, 0, 10, "a", 1⟩, ⟨1, 10, 20, "b", 1⟩]⟩,
         ⟨2, 25, 35, [⟨2, 25, 35, "c", 1⟩]⟩] := by
  simp only [segment_by_pauses, segmentByPausesLoop, shouldBreakSection, List.head?,
    List.isEmpty]
  norm_num

/-! ## Filename sanitization (`processing/caption_generator.py`)

`CaptionGenerator._sanitize_filename` (lines 227-267).  The Python
code works on `str`; we embed it on `List Char` (Unicode code points,
as Python strings are).  `burn_captions` (lines 136-139) returns
`output_path.parent / _sanitize_filename(output_path.name)`, so the
filename component of the returned path is exactly the value of
`_sanitize_filename`. -/

/-- `filename.rsplit('.', 1)`: split off the part after the LAST dot.
Returns `(base, some ext)` when a dot exists, `(filename, none)`
otherwise. -/
def rsplitLastDot (l : List Char) : List Char × Option (List Char) :=
  let rev := l.reverse
  let extRev := rev.takeWhile (· ≠ '.')
  let rest := rev.dropWhile (· ≠ '.')
  match rest with
  | [] => (l, none)
  | _ :: baseRev => (baseRev.reverse, some extRev.reverse)

/-- A character kept by step 2's character class `[\w.\-]`.  The
string this is applied to is ASCII-only (step 1 removed every
non-ASCII character), and on ASCII `\w` is `[A-Za-z0-9_]`. -/
def isWordDotDash (c : Char) : Bool :=
  c.isAlphanum || c = '_' || c = '.' || c = '-'

/-- A character matched by step 3's class `[_\s]`.  The string this is
applied to is ASCII-only, so `\s` can only match ASCII whitespace. -/
def isUnderscoreOrSpace (c : Char) : Bool :=
  c = '_' || c = ' ' || c = '\t' || c = '\n' || c = '\r' ||
    c = Char.ofNat 0x0B || c = Char.ofNat 0x0C

/-- `re.sub(r'[_\s]+', '_', s)`: replace every maximal run of
underscores/whitespace by a single underscore.  The boolean flag
records whether the previous character was part of such a run. -/
def collapseRuns : Bool → List Char → List Char
  | _, [] => []
  | true, c :: cs =>
    if isUnderscoreOrSpace c then collapseRuns true cs
    else c :: collapseRuns false cs
  | false, c :: cs =>
    if isUnderscoreOrSpace c then '_' :: collapseRuns true cs
    else c :: collapseRuns false cs

/-- Python `s.strip('_')`: remove leading and trailing underscores. -/
def stripUnderscores (l : List Char) : List Char :=
  ((l.dropWhile (· = '_')).reverse.dropWhile (· = '_')).reverse

/-- Steps 1-5 of `_sanitize_filename` applied to the base name (the
part of the filename before the last dot): remove non-ASCII characters
(`re.sub(r'[^\x00-\x7F]+', '')`), replace characters outside `[\w.\-]`
by `_`, collapse `[_\s]+` runs to a single `_`, strip leading/trailing
`_`, and fall back to `"captioned_video"` when nothing is left. -/
def sanitizeBaseName (base : List Char) : List Char :=
  let b1 := base.filter (fun c => c.toNat ≤ 0x7F)
  let b2 := b1.map (fun c => if isWordDotDash c then c else '_')
  let b3 := collapseRuns false b2
  let b4 := stripUnderscores b3
  if b4 = [] then "captioned_video".data else b4

/-- `CaptionGenerator._sanitize_filename` (caption_generator.py lines
227-267): sanitize the base name; re-attach the extension (the part
after the last dot) unchanged when it is non-empty. -/
def sanitize_filename (filename : String) : String :=
  let parts := rsplitLastDot filename.data
  -- name_parts = filename.rsplit('.', 1); extension = "" when there is no dot
  let extension : List Char := match parts.2 with | some e => e | none => []
  let base' := sanitizeBaseName parts.1
  -- `if extension: return f"{base_name}.{extension}"  return base_name`
  if extension ≠ [] then String.mk (base' ++ '.' :: extension)
  else String.mk base'

/-- The character set `[A-Za-z0-9._-]` of the spec's sanitization
property (ASCII letters, digits, dot, underscore, dash).
`Char.isAlphanum` is exactly ASCII `[A-Za-z0-9]`. -/
def isAllowedFilenameChar (c : Char) : Bool :=
  c.isAlphanum || c = '.' || c = '_' || c = '-'

theorem collapseRuns_chars (l : List Char) :
    ∀ (inRun : Bool), ∀ c ∈ collapseRuns inRun l, c = '_' ∨ c ∈ l := by
  induction l with
  | nil => intro inRun c h; cases inRun <;> simp [collapseRuns] at h
  | cons a as ih =>
    intro inRun c h
    have step : ∀ b, c ∈ collapseRuns b as → c = '_' ∨ c ∈ a :: as := by
      intro b hb
      rcases ih b c hb with h1 | h1
      · exact Or.inl h1
      · exact Or.inr (List.mem_cons_of_mem a h1)
    cases inRun <;> rw [collapseRuns] at h <;> by_cases ha : isUnderscoreOrSpace a
    · rw [if_pos ha] at h
      rcases List.mem_cons.mp h with h1 | h1
      · exact Or.inl h1
      · exact step true h1
    · rw [if_neg ha] at h
      rcases List.mem_cons.mp h with h1 | h1
      · exact Or.inr (h1 ▸ List.mem_cons_self a as)
      · exact step false h1
    · rw [if_pos ha] at h
      exact step true h
    · rw [if_neg ha] at h
      rcases List.mem_cons.mp h with h1 | h1
      · exact Or.inr (h1 ▸ List.mem_cons_self a as)
      · exact step false h1

theorem stripUnderscores_subset (l : List Char) :
    ∀ c ∈ stripUnderscores l, c ∈ l := by
  intro c h
  unfold stripUnderscores at h
  rw [List.mem_reverse] at h
  have h1 := (List.dropWhile_sublist (l := (l.dropWhile (· = '_')).reverse)
    (p := (· = '_'))).mem h
  rw [List.mem_reverse] at h1
  exact (List.dropWhile_sublist (l := l) (p := (· = '_'))).mem h1

/-- Every character produced by the base-name sanitization pipeline is
in `[A-Za-z0-9._-]`, and the result is non-empty. -/
theorem sanitizeBaseName_allowed (base : List Char) :
    sanitizeBaseName base ≠ [] ∧
      ∀ c ∈ sanitizeBaseName base, isAllowedFilenameChar c := by
  unfold sanitizeBaseName
  by_cases h : stripUnderscores (collapseRuns false
      ((base.filter (fun c => c.toNat ≤ 0x7F)).map
        (fun c => if isWordDotDash c then c else '_'))) = []
  · rw [if_pos h]
    refine ⟨by simp, ?_⟩
    intro c hc
    fin_cases hc <;> rfl
  · rw [if_neg h]
    refine ⟨h, ?_⟩
    intro c hc
    have hc1 := stripUnderscores_subset _ c hc
    rcases collapseRuns_chars _ false c hc1 with h2 | h2
    · subst h2; rfl
    · rcases List.mem_map.mp h2 with ⟨a, _, ha2⟩
      by_cases hw : isWordDotDash a
      · rw [if_pos hw] at ha2
        subst ha2
        simp only [isWordDotDash, Bool.or_eq_true, decide_eq_true_eq] at hw
        simp only [isAllowedFilenameChar, Bool.or_eq_true, decide_eq_true_eq]
        tauto
      · rw [if_neg hw] at ha2
        subst ha2; rfl

/-- C3 (amended): for every input filename the sanitized BASE name is
non-empty and every one of its characters is in `[A-Za-z0-9._-]`; the
extension — the part of the input after its last dot — is appended
verbatim, without any sanitization; the whole result is non-empty. -/
theorem sanitize_filename_base_sanitized (filename : String) :
    sanitizeBaseName (rsplitLastDot filename.data).1 ≠ [] ∧
    (∀ c ∈ sanitizeBaseName (rsplitLastDot filename.data).1,
      isAllowedFilenameChar c) ∧
    (∀ ext, (rsplitLastDot filename.data).2 = some ext → ext ≠ [] →
      sanitize_filename filename
        = String.mk (sanitizeBaseName (rsplitLastDot filename.data).1
            ++ '.' :: ext)) ∧
    sanitize_filename filename ≠ "" := by
  obtain ⟨hne, hall⟩ := sanitizeBaseName_allowed (rsplitLastDot filename.data).1
  have hmk : ∀ (l : List Char), l ≠ [] → String.mk l ≠ "" := by
    intro l hl hcon
    apply hl
    have hd : (String.mk l).data = ("" : String).data := by rw [hcon]
    simpa using hd
  refine ⟨hne, hall, ?_, ?_⟩
  · intro ext hext hextne
    simp only [sanitize_filename, hext]
    simp only [ne_eq, hextne, not_false_eq_true, if_pos]
  · simp only [sanitize_filename, ne_eq, ite_not]
    split
    · exact hmk _ hne
    · exact hmk _ (by simp)

/-- C3 (counterexample): the input `"a.b/c"` contains a path
separator, yet `_sanitize_filename` returns it unchanged — the part
after the LAST dot (`"b/c"`) is treated as the extension and
re-attached without sanitization, so the result still contains `'/'`,
which is outside `[A-Za-z0-9._-]`. -/
theorem sanitize_filename_separator_survives :
    sanitize_filename "a.b/c" = "a.b/c" ∧
    '/' ∈ (sanitize_filename "a.b/c").data ∧
    isAllowedFilenameChar '/' = false := by
  decide

/-- C4 (counterexample): sanitizing the output name `"Q&A 🔥.mp4"`
does NOT produce `"Q_A_.mp4"`: step 4 of `_sanitize_filename`
(`base_name.strip('_')`) removes the trailing underscore left by the
replaced space. -/
theorem sanitize_filename_qa_not_claimed :
    sanitize_filename "Q&A 🔥.mp4" ≠ "Q_A_.mp4" := by
  decide

/-- C4 (amended): sanitizing the output name `"Q&A 🔥.mp4"` produces
`"Q_A.mp4"`: the emoji is stripped, `&` and the space become
underscores, and the trailing underscore is then stripped. -/
theorem sanitize_filename_qa :
    sanitize_filename "Q&A 🔥.mp4" = "Q_A.mp4" := by
  decide

/-! ## Time codec (`utils/time_utils.py`)

Python floats are embedded as exact rationals.  `int(x)` truncates
toward zero; every value it is applied to below is non-negative on the
claims' domain (`seconds ≥ 0`), where truncation agrees with
`Int.floor`/`Int.toNat`.  Python `a % b` is `a - b * (a // b)` with
floor division, embedded as `pyMod`.  Decimal rendering (`f"{n:02d}"`,
`str(n)`) and parsing (`int(s)`) of non-negative integers are embedded
by `natRepr`/`padZeros` and `parseNat`. -/

/-- Python `a % b` on floats: `a - b * floor(a / b)`. -/
def pyMod (a b : ℚ) : ℚ := a - b * ⌊a / b⌋

/-- Decimal digits of `n`, most significant first, as Python
`str(n)` / `"%d" % n` renders a non-negative integer. -/
def natRepr (n : ℕ) : List Char :=
  if n = 0 then ['0'] else ((Nat.digits 10 n).reverse.map Nat.digitChar)

/-- Zero padding to width `w`, as in `f"{n:02d}"` / `f"{n:03d}"` for
non-negative `n`. -/
def padZeros (w : ℕ) (l : List Char) : List Char :=
  List.replicate (w - l.length) '0' ++ l

/-- Python `int(s)` on a non-empty string of decimal digits. -/
def parseNat (l : List Char) : ℕ :=
  l.foldl (fun a c => 10 * a + (c.toNat - 48)) 0

/-- Python `s.split(sep)` for a single-character separator. -/
def splitOnChar (sep : Char) : List Char → List (List Char)
  | [] => [[]]
  | c :: cs =>
    if c = sep then [] :: splitOnChar sep cs
    else
      match splitOnChar sep cs with
      | t :: ts => (c :: t) :: ts
      | [] => [[c]]

/-- `seconds_to_hms` (time_utils.py lines 12-31): `HH:MM:SS`. -/
def seconds_to_hms (seconds : ℚ) : String :=
  let hours := (⌊seconds / 3600⌋).toNat
  let minutes := (⌊pyMod seconds 3600 / 60⌋).toNat
  let secs := (⌊pyMod seconds 60⌋).toNat
  String.mk (padZeros 2 (natRepr hours) ++ ':' :: padZeros 2 (natRepr minutes)
    ++ ':' :: padZeros 2 (natRepr secs))

/-- `seconds_to_hms_ms` (time_utils.py lines 34-54): `HH:MM:SS.mmm`. -/
def seconds_to_hms_ms (seconds : ℚ) : String :=
  let hours := (⌊seconds / 3600⌋).toNat
  let minutes := (⌊pyMod seconds 3600 / 60⌋).toNat
  let secs := (⌊pyMod seconds 60⌋).toNat
  let milliseconds := (⌊pyMod seconds 1 * 1000⌋).toNat
  String.mk (padZeros 2 (natRepr hours) ++ ':' :: padZeros 2 (natRepr minutes)
    ++ ':' :: (padZeros 2 (natRepr secs) ++ '.' :: padZeros 3 (natRepr milliseconds)))

/-- `hms_to_seconds` (time_utils.py lines 57-87): parse `HH:MM:SS` or
`HH:MM:SS.mmm`.  Out-of-range indexing (which would raise in Python)
is embedded with `getD`; the function is only applied to well-formed
time strings. -/
def hms_to_seconds (time_str : String) : ℚ :=
  let parts := splitOnChar ':' time_str.data
  let hours := parseNat (parts.getD 0 [])
  let minutes := parseNat (parts.getD 1 [])
  if '.' ∈ parts.getD 2 [] then
    let secs_parts := splitOnChar '.' (parts.getD 2 [])
    let seconds := parseNat (secs_parts.getD 0 [])
    let milliseconds := parseNat (secs_parts.getD 1 [])
    (hours : ℚ) * 3600 + (minutes : ℚ) * 60 + (seconds : ℚ) + (milliseconds : ℚ) / 1000
  else
    (hours : ℚ) * 3600 + (minutes : ℚ) * 60 + (parseNat (parts.getD 2 []) : ℚ)

/-- The `format_type` argument of `format_timestamp`; the code passes
the strings `"hms"`, `"readable"`, `"srt"` (any other value raises
`ValueError`, which no caller triggers). -/
inductive FormatType where
  | hms
  | readable
  | srt
deriving Repr, DecidableEq

/-- `format_timestamp` (time_utils.py lines 90-141). The `"srt"`
branch is `seconds_to_hms_ms(seconds).replace('.', ',')`; for the
single-character pattern `'.'` Python `str.replace` is the
character-wise map. -/
def format_timestamp (seconds : ℚ) (include_ms : Bool)
    (format_type : FormatType) : String :=
  match format_type with
  | .hms => if include_ms then seconds_to_hms_ms seconds else seconds_to_hms seconds
  | .readable =>
    let hours := (⌊seconds / 3600⌋).toNat
    let minutes := (⌊pyMod seconds 3600 / 60⌋).toNat
    let secs := (⌊pyMod seconds 60⌋).toNat
    let parts : List String :=
      (if hours > 0 then
        [String.mk (natRepr hours) ++ " hour" ++ (if hours ≠ 1 then "s" else "")]
       else []) ++
      (if minutes > 0 then
        [String.mk (natRepr minutes) ++ " minute" ++ (if minutes ≠ 1 then "s" else "")]
       else []) ++
      (if secs > 0 ∨ (hours = 0 ∧ minutes = 0) then
        [String.mk (natRepr secs) ++ " second" ++ (if secs ≠ 1 then "s" else "")]
       else [])
    " ".intercalate parts
  | .srt =>
    String.mk ((seconds_to_hms_ms seconds).data.map
      (fun c => if c = '.' then ',' else c))

theorem digitChar_toNat_sub (d : ℕ) (h : d < 10) :
    (Nat.digitChar d).toNat - 48 = d := by
  interval_cases d <;> rfl

theorem digitChar_ne_sep (d : ℕ) (h : d < 10) :
    Nat.digitChar d ≠ ':' ∧ Nat.digitChar d ≠ '.' := by
  interval_cases d <;> exact ⟨by decide, by decide⟩

theorem natRepr_ne_sep (n : ℕ) : ∀ c ∈ natRepr n, c ≠ ':' ∧ c ≠ '.' := by
  intro c hc
  unfold natRepr at hc
  by_cases h : n = 0
  · rw [if_pos h] at hc
    simp only [List.mem_singleton] at hc
    subst hc
    exact ⟨by decide, by decide⟩
  · rw [if_neg h] at hc
    rcases List.mem_map.mp hc with ⟨d, hd, rfl⟩
    exact digitChar_ne_sep d (Nat.digits_lt_base (by norm_num) (List.mem_reverse.mp hd))

theorem padZeros_ne_sep (w : ℕ) (n : ℕ) :
    ∀ c ∈ padZeros w (natRepr n), c ≠ ':' ∧ c ≠ '.' := by
  intro c hc
  rcases List.mem_append.mp hc with h | h
  · rw [List.eq_of_mem_replicate h]
    exact ⟨by decide, by decide⟩
  · exact natRepr_ne_sep n c h

theorem parse_foldl_digits (ds : List ℕ) :
    ∀ a : ℕ, (∀ d ∈ ds, d < 10) →
      ((ds.reverse.map Nat.digitChar).foldl (fun a c => 10 * a + (c.toNat - 48)) a)
        = a * 10 ^ ds.length + Nat.ofDigits 10 ds := by
  induction ds with
  | nil => intro a _; simp [Nat.ofDigits]
  | cons d ds ih =>
    intro a hlt
    rw [List.reverse_cons, List.map_append, List.foldl_append]
    rw [ih a (fun x hx => hlt x (List.mem_cons_of_mem d hx))]
    simp only [List.map_cons, List.map_nil, List.foldl_cons, List.foldl_nil]
    rw [digitChar_toNat_sub d (hlt d (List.mem_cons_self d ds))]
    rw [Nat.ofDigits_cons]
    simp only [List.length_cons, pow_succ]
    ring

theorem parseNat_natRepr (n : ℕ) : parseNat (natRepr n) = n := by
  unfold parseNat natRepr
  by_cases h : n = 0
  · subst h; rfl
  · rw [if_neg h]
    rw [parse_foldl_digits (Nat.digits 10 n) 0
      (fun d hd => Nat.digits_lt_base (by norm_num) hd)]
    simp [Nat.ofDigits_digits]

theorem parseNat_padZeros (w : ℕ) (l : List Char) :
    parseNat (padZeros w l) = parseNat l := by
  unfold parseNat padZeros
  rw [List.foldl_append]
  have : ∀ k : ℕ, (List.replicate k '0').foldl
      (fun a c => 10 * a + (c.toNat - 48)) 0 = 0 := by
    intro k
    induction k with
    | zero => rfl
    | succ k ih => simpa [List.replicate_succ] using ih
  rw [this]

theorem parseNat_pad_natRepr (w n : ℕ) : parseNat (padZeros w (natRepr n)) = n := by
  rw [parseNat_padZeros, parseNat_natRepr]

theorem splitOnChar_not_mem (sep : Char) (xs : List Char) (h : sep ∉ xs) :
    splitOnChar sep xs = [xs] := by
  induction xs with
  | nil => rfl
  | cons c cs ih =>
    rw [splitOnChar]
    have hc : ¬ c = sep := fun hcon => h (hcon ▸ List.mem_cons_self c cs)
    rw [if_neg hc, ih (fun hm => h (List.mem_cons_of_mem c hm))]

theorem splitOnChar_append (sep : Char) (xs rest : List Char) (h : sep ∉ xs) :
    splitOnChar sep (xs ++ sep :: rest) = xs :: splitOnChar sep rest := by
  induction xs with
  | nil => simp [splitOnChar]
  | cons c cs ih =>
    have hc : ¬ c = sep := fun hcon => h (hcon ▸ List.mem_cons_self c cs)
    rw [List.cons_append, splitOnChar, if_neg hc,
      ih (fun hm => h (List.mem_cons_of_mem c hm))]

/-- Parsing a well-formed `HH:MM:SS.mmm` string recovers the four
non-negative components. -/
theorem hms_to_seconds_format (hN mN secN msN : ℕ) :
    hms_to_seconds (String.mk (padZeros 2 (natRepr hN) ++ ':' :: padZeros 2 (natRepr mN)
      ++ ':' :: (padZeros 2 (natRepr secN) ++ '.' :: padZeros 3 (natRepr msN))))
    = (hN : ℚ) * 3600 + (mN : ℚ) * 60 + (secN : ℚ) + (msN : ℚ) / 1000 := by
  have hm1 : ':' ∉ padZeros 2 (natRepr hN) :=
    fun hm => (padZeros_ne_sep 2 hN _ hm).1 rfl
  have hm2 : ':' ∉ padZeros 2 (natRepr mN) :=
    fun hm => (padZeros_ne_sep 2 mN _ hm).1 rfl
  have hm3 : ':' ∉ padZeros 2 (natRepr secN) ++ '.' :: padZeros 3 (natRepr msN) := by
    intro hm
    rcases List.mem_append.mp hm with h | h
    · exact (padZeros_ne_sep 2 secN _ h).1 rfl
    · rcases List.mem_cons.mp h with h | h
      · exact absurd h (by decide)
      · exact (padZeros_ne_sep 3 msN _ h).1 rfl
  have hd1 : '.' ∉ padZeros 2 (natRepr secN) :=
    fun hm => (padZeros_ne_sep 2 secN _ hm).2 rfl
  have hd2 : '.' ∉ padZeros 3 (natRepr msN) :=
    fun hm => (padZeros_ne_sep 3 msN _ hm).2 rfl
  unfold hms_to_seconds
  have hdata : (String.mk (padZeros 2 (natRepr hN) ++ ':' :: padZeros 2 (natRepr mN)
      ++ ':' :: (padZeros 2 (natRepr secN) ++ '.' :: padZeros 3 (natRepr msN)))).data
      = padZeros 2 (natRepr hN) ++ ':' :: (padZeros 2 (natRepr mN)
        ++ ':' :: (padZeros 2 (natRepr secN) ++ '.' :: padZeros 3 (natRepr msN))) := by
    show padZeros 2 (natRepr hN) ++ ':' :: padZeros 2 (natRepr mN)
      ++ ':' :: (padZeros 2 (natRepr secN) ++ '.' :: padZeros 3 (natRepr msN)) = _
    simp
  rw [hdata, splitOnChar_append ':' _ _ hm1, splitOnChar_append ':' _ _ hm2,
    splitOnChar_not_mem ':' _ hm3]
  simp only [List.getD_cons_zero, List.getD_cons_succ]
  rw [if_pos (List.mem_append_right _ (List.mem_cons_self '.' _))]
  rw [splitOnChar_append '.' _ _ hd1, splitOnChar_not_mem '.' _ hd2]
  simp only [List.getD_cons_zero, List.getD_cons_succ]
  rw [parseNat_pad_natRepr, parseNat_pad_natRepr, parseNat_pad_natRepr,
    parseNat_pad_natRepr]

theorem pyMod_nonneg (a b : ℚ) (hb : 0 < b) : 0 ≤ pyMod a b := by
  unfold pyMod
  have h1 : (⌊a / b⌋ : ℚ) ≤ a / b := Int.floor_le (a / b)
  have h2 : b * (⌊a / b⌋ : ℚ) ≤ b * (a / b) :=
    mul_le_mul_of_nonneg_left h1 (le_of_lt hb)
  rw [mul_div_cancel₀ a (ne_of_gt hb)] at h2
  linarith

/-- C10: time-codec round trip.  For every `s ≥ 0`,
`hms_to_seconds(seconds_to_hms_ms(s))` is `s` truncated to whole
milliseconds (`⌊1000·s⌋/1000`); in particular, when `s` is a whole
number of milliseconds the round trip returns `s` exactly. -/
theorem hms_roundtrip (s : ℚ) (hs : 0 ≤ s) :
    hms_to_seconds (seconds_to_hms_ms s) = (⌊1000 * s⌋ : ℚ) / 1000 ∧
    (1000 * s = (⌊1000 * s⌋ : ℚ) → hms_to_seconds (seconds_to_hms_ms s) = s) := by
  have key : hms_to_seconds (seconds_to_hms_ms s) = (⌊1000 * s⌋ : ℚ) / 1000 := by
    rw [show seconds_to_hms_ms s
        = String.mk (padZeros 2 (natRepr (⌊s / 3600⌋).toNat)
          ++ ':' :: padZeros 2 (natRepr (⌊pyMod s 3600 / 60⌋).toNat)
          ++ ':' :: (padZeros 2 (natRepr (⌊pyMod s 60⌋).toNat)
            ++ '.' :: padZeros 3 (natRepr (⌊pyMod s 1 * 1000⌋).toNat))) from rfl]
    rw [hms_to_seconds_format]
    -- non-negativity of the four components
    have n1 : (0 : ℤ) ≤ ⌊s / 3600⌋ :=
      Int.floor_nonneg.mpr (by positivity)
    have n2 : (0 : ℤ) ≤ ⌊pyMod s 3600 / 60⌋ :=
      Int.floor_nonneg.mpr (div_nonneg (pyMod_nonneg s 3600 (by norm_num)) (by norm_num))
    have n3 : (0 : ℤ) ≤ ⌊pyMod s 60⌋ :=
      Int.floor_nonneg.mpr (pyMod_nonneg s 60 (by norm_num))
    have n4 : (0 : ℤ) ≤ ⌊pyMod s 1 * 1000⌋ :=
      Int.floor_nonneg.mpr (mul_nonneg (pyMod_nonneg s 1 (by norm_num)) (by norm_num))
    -- the component floors in terms of s
    have e1 : ⌊pyMod s 3600 / 60⌋ = ⌊s / 60⌋ - 60 * ⌊s / 3600⌋ := by
      have : pyMod s 3600 / 60 = s / 60 - ((60 * ⌊s / 3600⌋ : ℤ) : ℚ) := by
        unfold pyMod; push_cast; ring
      rw [this, Int.floor_sub_int]
    have e2 : ⌊pyMod s 60⌋ = ⌊s⌋ - 60 * ⌊s / 60⌋ := by
      have : pyMod s 60 = s - ((60 * ⌊s / 60⌋ : ℤ) : ℚ) := by
        unfold pyMod; push_cast; ring
      rw [this, Int.floor_sub_int]
    have e3 : ⌊pyMod s 1 * 1000⌋ = ⌊1000 * s⌋ - 1000 * ⌊s⌋ := by
      have : pyMod s 1 * 1000 = 1000 * s - ((1000 * ⌊s⌋ : ℤ) : ℚ) := by
        unfold pyMod; rw [div_one]; push_cast; ring
      rw [this, Int.floor_sub_int]
    have c : ∀ (a : ℤ), 0 ≤ a → ((a.toNat : ℕ) : ℚ) = (a : ℚ) := by
      intro a ha; exact_mod_cast Int.toNat_of_nonneg ha
    rw [c _ n1, c _ n2, c _ n3, c _ n4, e1, e2, e3]
    push_cast
    field_simp
    ring
  refine ⟨key, ?_⟩
  intro hwhole
  rw [key, ← hwhole]
  ring

/-- Witness for C10 at `s = 3661.5` (a whole number of milliseconds):
the round trip returns `s` exactly. -/
theorem hms_roundtrip_witness :
    (0 : ℚ) ≤ 7323 / 2 ∧
      hms_to_seconds (seconds_to_hms_ms (7323 / 2)) = 7323 / 2 := by
  refine ⟨by norm_num, ?_⟩
  exact (hms_roundtrip (7323 / 2) (by norm_num)).2 (by norm_num)

/-! ## Subtitle rendering (`processing/caption_generator.py` lines 52-87)

`create_srt_file` writes, for each caption in order, three `f.write`
calls — `f"{caption.index}\n"`, `f"{start} --> {end}\n"` with the two
timestamps rendered by `format_timestamp(·, include_ms=True,
format_type="srt")`, and `f"{caption.text}\n\n"` — into a file opened
with `encoding='utf-8'`.  The byte content of the resulting file is
the UTF-8 encoding of the concatenation of the written strings, which
`create_srt_content` accumulates with a fold. -/

structure Caption where
  index : ℕ
  start_time : ℚ
  end_time : ℚ
  text : String
deriving Repr, DecidableEq

/-- The three strings written by one iteration of the `create_srt_file`
loop: the caption's index line, its `HH:MM:SS,mmm --> HH:MM:SS,mmm`
timestamp line, and its text followed by a blank-line separator. -/
def srtEntryWrites (caption : Caption) : String :=
  (String.mk (natRepr caption.index) ++ "\n")
  ++ (format_timestamp caption.start_time true .srt ++ " --> "
      ++ format_timestamp caption.end_time true .srt ++ "\n")
  ++ (caption.text ++ "\n\n")

/-- The full text written by `create_srt_file`: the per-caption writes
performed in sequence. -/
def create_srt_content (captions : List Caption) : String :=
  captions.foldl (fun acc caption => acc ++ srtEntryWrites caption) ""

/-- The byte content of the SRT file (`encoding='utf-8'`). -/
def create_srt_bytes (captions : List Caption) : ByteArray :=
  (create_srt_content captions).toUTF8

theorem map_dot_comma_eq_self (l : List Char) (h : ∀ c ∈ l, c ≠ '.') :
    l.map (fun c => if c = '.' then ',' else c) = l := by
  conv_rhs => rw [← List.map_id l]
  exact List.map_congr_left fun c hc => by rw [if_neg (h c hc)]; rfl

/-- The `"srt"` branch of `format_timestamp` produces exactly the
`HH:MM:SS,mmm` layout: the four zero-padded decimal fields of
`seconds_to_hms_ms`, with the `'.'` separator replaced by `','`. -/
theorem format_timestamp_srt_shape (q : ℚ) :
    format_timestamp q true .srt
      = String.mk (padZeros 2 (natRepr (⌊q / 3600⌋).toNat)
          ++ ':' :: padZeros 2 (natRepr (⌊pyMod q 3600 / 60⌋).toNat)
          ++ ':' :: (padZeros 2 (natRepr (⌊pyMod q 60⌋).toNat)
            ++ ',' :: padZeros 3 (natRepr (⌊pyMod q 1 * 1000⌋).toNat))) := by
  show String.mk (((seconds_to_hms_ms q).data).map
      (fun c => if c = '.' then ',' else c)) = _
  rw [show (seconds_to_hms_ms q).data
      = padZeros 2 (natRepr (⌊q / 3600⌋).toNat)
        ++ ':' :: padZeros 2 (natRepr (⌊pyMod q 3600 / 60⌋).toNat)
        ++ ':' :: (padZeros 2 (natRepr (⌊pyMod q 60⌋).toNat)
          ++ '.' :: padZeros 3 (natRepr (⌊pyMod q 1 * 1000⌋).toNat)) from rfl]
  congr 1
  simp only [List.map_append, List.map_cons]
  rw [map_dot_comma_eq_self _ (fun c hc => (padZeros_ne_sep _ _ c hc).2),
    map_dot_comma_eq_self _ (fun c hc => (padZeros_ne_sep _ _ c hc).2),
    map_dot_comma_eq_self _ (fun c hc => (padZeros_ne_sep _ _ c hc).2),
    map_dot_comma_eq_self _ (fun c hc => (padZeros_ne_sep _ _ c hc).2)]
  have hcolon : (if ':' = '.' then ',' else ':') = ':' := by decide
  have hdot : (if '.' = '.' then ',' else '.') = ',' := by decide
  simp only [hcolon, hdot, if_true]

/-- C9: subtitle rendering is deterministic — two invocations of
`create_srt_file` on the same caption list produce byte-identical
output — and the output is the UTF-8 encoding of the concatenation,
caption by caption, of an index line, a
`HH:MM:SS,mmm --> HH:MM:SS,mmm` timestamp line, the caption text and a
blank-line separator. -/
theorem create_srt_file_deterministic (captions : List Caption) :
    create_srt_bytes captions = create_srt_bytes captions ∧
    create_srt_content captions = String.join (captions.map srtEntryWrites) ∧
    create_srt_bytes captions
      = (String.join (captions.map srtEntryWrites)).toUTF8 ∧
    ∀ caption ∈ captions, ∀ q ∈ [caption.start_time, caption.end_time],
      format_timestamp q true .srt
        = String.mk (padZeros 2 (natRepr (⌊q / 3600⌋).toNat)
            ++ ':' :: padZeros 2 (natRepr (⌊pyMod q 3600 / 60⌋).toNat)
            ++ ':' :: (padZeros 2 (natRepr (⌊pyMod q 60⌋).toNat)
              ++ ',' :: padZeros 3 (natRepr (⌊pyMod q 1 * 1000⌋).toNat))) := by
  have hcontent : create_srt_content captions
      = String.join (captions.map srtEntryWrites) := by
    apply String.ext
    unfold create_srt_content String.join
    rw [← List.foldl_map srtEntryWrites (fun acc s => acc ++ s)]
  exact ⟨rfl, hcontent, by rw [create_srt_bytes, hcontent],
    fun _ _ q _ => format_timestamp_srt_shape q⟩

/-! ## Scene detection (`processing/scene_detector.py`)

`SceneDetector.detect_scenes` (lines 86-204) reads frames from an
opened video.  We embed the decodable frame stream as a list: `Frame`
is the (row-major flattened) pixel array of one decoded frame, each
pixel a BGR triple of 8-bit values.  `fps` and the frame count come
from the container metadata; in the embedding `total_frames` is the
length of the stream.  The scorer `self._calculate_frame_difference`
is a parameter `diff` of the loop (its value is embedded separately
below for the scorer claims); the frame-saving callback is the
parameter `cb`, and `save_frames and frame_output_callback` guards its
use exactly as in the source. -/

/-- A decoded frame: flattened pixel array of BGR triples.  All three
per-frame reductions used below (pixel-wise mean, histogram, pixel-wise
mismatch count) are invariant under row-major flattening of the 2-D
array. -/
def FrameData : Type := List (ℕ × ℕ × ℕ)

structure Scene where
  scene_number : ℕ
  start_time : ℚ
  end_time : Option ℚ
  start_frame : ℕ
  end_frame : Option ℕ
  frame_path : Option String
  change_score : ℚ
  description : String := ""
deriving Repr, DecidableEq

/-- `scenes[-1].end_time = current_time; scenes[-1].end_frame =
frame_num` (scene_detector.py lines 156-158), guarded by `if scenes:`:
update the end fields of the last scene, if any. -/
def updateLastScene (scenes : List Scene) (t : ℚ) (frame_num : ℕ) : List Scene :=
  match scenes.getLast? with
  | none => scenes
  | some last =>
    scenes.dropLast ++ [{ last with end_time := some t, end_frame := some frame_num }]

/-- The frame loop of `detect_scenes` (lines 124-175).  Loop state:
remaining frames, `frame_num`, accumulated `scenes`, `scene_number`,
`prev_frame`, `last_scene_time`.  A boundary is evaluated only when
`current_time - last_scene_time >= min_scene_duration` and a previous
frame exists; it fires when `diff prev frame > threshold`, closing the
open scene and opening a new one at `current_time`. -/
def detectScenesLoop (diff : FrameData → FrameData → ℚ)
    (threshold min_scene_duration fps : ℚ)
    (save_frames : Bool) (cb : Option (FrameData → ℕ → ℚ → Option String)) :
    List FrameData → ℕ → List Scene → ℕ → Option FrameData → ℚ → List Scene
  | [], _frame_num, scenes, _scene_number, _prev, _last => scenes
  | frame :: rest, frame_num, scenes, scene_number, prev_frame, last_scene_time =>
    let current_time : ℚ := frame_num / fps
    if current_time - last_scene_time ≥ min_scene_duration then
      match prev_frame with
      | some prev =>
        let change_score := diff prev frame
        if change_score > threshold then
          let frame_path :=
            match save_frames, cb with
            | true, some f => f frame frame_num current_time
            | _, _ => none
          let scene : Scene :=
            { scene_number := scene_number
              start_time := current_time
              end_time := none
              start_frame := frame_num
              end_frame := none
              frame_path := frame_path
              change_score := change_score }
          detectScenesLoop diff threshold min_scene_duration fps save_frames cb
            rest (frame_num + 1) (updateLastScene scenes current_time frame_num ++ [scene])
            (scene_number + 1) (some frame) current_time
        else
          detectScenesLoop diff threshold min_scene_duration fps save_frames cb
            rest (frame_num + 1) scenes scene_number (some frame) last_scene_time
      | none =>
        detectScenesLoop diff threshold min_scene_duration fps save_frames cb
          rest (frame_num + 1) scenes scene_number (some frame) last_scene_time
    else
      detectScenesLoop diff threshold min_scene_duration fps save_frames cb
        rest (frame_num + 1) scenes scene_number (some frame) last_scene_time

/-- `SceneDetector.detect_scenes` (lines 86-204): run the frame loop,
then close the scene list — a single whole-video scene if no boundary
was detected, otherwise the final open scene is closed at
`total_frames / fps` / frame `total_frames`. -/
def detect_scenes (diff : FrameData → FrameData → ℚ)
    (threshold min_scene_duration fps : ℚ)
    (save_frames : Bool) (cb : Option (FrameData → ℕ → ℚ → Option String))
    (frames : List FrameData) : List Scene :=
  let total_frames := frames.length
  let scenes := detectScenesLoop diff threshold min_scene_duration fps save_frames cb
    frames 0 [] 1 none 0
  if scenes = [] then
    [{ scene_number := 1
       start_time := 0
       end_time := some ((total_frames : ℚ) / fps)
       start_frame := 0
       end_frame := some total_frames
       frame_path := none
       change_score := 0
       description := "No scene changes detected" }]
  else
    updateLastScene scenes ((total_frames : ℚ) / fps) total_frames

/-- Contiguity relation between adjacent scenes: the earlier scene's
end time is the later scene's start time. -/
def sceneAdj (a b : Scene) : Prop := a.end_time = some b.start_time

theorem updateLastScene_starts (scenes : List Scene) (t : ℚ) (fn : ℕ) :
    ∀ s' ∈ updateLastScene scenes t fn, ∃ s ∈ scenes, s'.start_time = s.start_time := by
  intro s' hs'
  unfold updateLastScene at hs'
  rcases hlast : scenes.getLast? with _ | last
  · rw [hlast] at hs'
    exact ⟨s', hs', rfl⟩
  · rw [hlast] at hs'
    rcases List.mem_append.mp hs' with h | h
    · exact ⟨s', (List.dropLast_sublist scenes).subset h, rfl⟩
    · rw [List.mem_singleton] at h
      subst h
      exact ⟨last, List.mem_of_mem_getLast? (by rw [hlast]; rfl), rfl⟩

theorem updateLastScene_eq (scenes : List Scene) (t : ℚ) (fn : ℕ)
    (h : scenes ≠ []) :
    updateLastScene scenes t fn
      = scenes.dropLast ++ [{ scenes.getLast h with
          end_time := some t, end_frame := some fn }] := by
  unfold updateLastScene
  rw [List.getLast?_eq_getLast_of_ne_nil h]

theorem updateLastScene_chain (scenes : List Scene) (t : ℚ) (fn : ℕ)
    (hchain : List.Chain' sceneAdj scenes) :
    List.Chain' sceneAdj (updateLastScene scenes t fn) := by
  rcases eq_or_ne scenes [] with h | h
  · subst h; exact hchain
  · rw [updateLastScene_eq scenes t fn h]
    conv at hchain => rw [← List.dropLast_append_getLast h]
    rw [List.chain'_append] at hchain ⊢
    refine ⟨hchain.1, List.chain'_singleton _, ?_⟩
    intro x hx y hy
    rw [List.head?_cons, Option.mem_some_iff] at hy
    subst hy
    have := hchain.2.2 x hx (scenes.getLast h) (by simp)
    exact this

theorem updateLastScene_append_chain (scenes : List Scene) (t : ℚ) (fn : ℕ)
    (sc : Scene) (hsc : sc.start_time = t)
    (hchain : List.Chain' sceneAdj scenes) :
    List.Chain' sceneAdj (updateLastScene scenes t fn ++ [sc]) := by
  rcases eq_or_ne scenes [] with h | h
  · subst h
    exact List.chain'_singleton _
  · rw [List.chain'_append]
    refine ⟨updateLastScene_chain scenes t fn hchain, List.chain'_singleton _, ?_⟩
    intro x hx y hy
    rw [List.head?_cons, Option.mem_some_iff] at hy
    subst hy
    rw [updateLastScene_eq scenes t fn h, List.getLast?_concat,
      Option.mem_some_iff] at hx
    subst hx
    show (some t : Option ℚ) = some sc.start_time
    rw [hsc]

theorem updateLastScene_getLast (scenes : List Scene) (t : ℚ) (fn : ℕ)
    (h : scenes ≠ []) :
    ∃ last, (updateLastScene scenes t fn).getLast? = some last ∧
      last.end_time = some t ∧ last.end_frame = some fn := by
  rw [updateLastScene_eq scenes t fn h, List.getLast?_concat]
  exact ⟨_, rfl, rfl, rfl⟩

/-- Loop invariant for `detectScenesLoop`: the accumulated scene list
stays contiguous (`sceneAdj`-chained), and — when `fps > 0` — every
accumulated scene starts at a strictly positive time, because a
boundary can only fire at a frame with a previous frame, i.e. at
`frame_num ≥ 1`. -/
theorem detectScenesLoop_inv (diff : FrameData → FrameData → ℚ)
    (threshold min_scene_duration fps : ℚ) (save_frames : Bool)
    (cb : Option (FrameData → ℕ → ℚ → Option String)) (hfps : 0 < fps) :
    ∀ (frames : List FrameData) (fn : ℕ) (scenes : List Scene) (num : ℕ)
      (prev : Option FrameData) (last : ℚ),
      List.Chain' sceneAdj scenes →
      (∀ s ∈ scenes, 0 < s.start_time) →
      (prev.isSome → 1 ≤ fn) →
      List.Chain' sceneAdj (detectScenesLoop diff threshold min_scene_duration fps
          save_frames cb frames fn scenes num prev last) ∧
      (∀ s ∈ detectScenesLoop diff threshold min_scene_duration fps
          save_frames cb frames fn scenes num prev last, 0 < s.start_time) := by
  intro frames
  induction frames with
  | nil =>
    intro fn scenes num prev last hchain hpos _
    exact ⟨hchain, hpos⟩
  | cons frame rest ih =>
    intro fn scenes num prev last hchain hpos hprev
    rw [detectScenesLoop.eq_def]
    simp only []
    by_cases hgate : (fn : ℚ) / fps - last ≥ min_scene_duration
    · rw [if_pos hgate]
      rcases prev with _ | p
      · exact ih (fn + 1) scenes num (some frame) last hchain hpos
          (fun _ => Nat.le_add_left 1 fn)
      · have hfn : 1 ≤ fn := hprev rfl
        dsimp only
        by_cases hscore : diff p frame > threshold
        · rw [if_pos hscore]
          have hstart : (0 : ℚ) < (fn : ℚ) / fps := by
            apply div_pos _ hfps
            exact_mod_cast Nat.lt_of_lt_of_le Nat.zero_lt_one hfn
          apply ih
          · exact updateLastScene_append_chain scenes _ fn _ rfl hchain
          · intro s hs
            rcases List.mem_append.mp hs with h | h
            · rcases updateLastScene_starts scenes _ fn s h with ⟨s0, hs0, he⟩
              rw [he]
              exact hpos s0 hs0
            · rw [List.mem_singleton] at h
              subst h
              exact hstart
          · exact fun _ => Nat.le_add_left 1 fn
        · rw [if_neg hscore]
          exact ih (fn + 1) scenes num (some frame) last hchain hpos
            (fun _ => Nat.le_add_left 1 fn)
    · rw [if_neg hgate]
      exact ih (fn + 1) scenes num (some frame) last hchain hpos
        (fun _ => Nat.le_add_left 1 fn)

/-- C1 (amended): for every scorer, thresholds and frame stream, and
`fps > 0`, the scene list returned by `detect_scenes` is non-empty and
contiguous (`scene[i].end_time = scene[i+1].start_time`) and the last
scene's `end_time` is the video duration `total_frames / fps`; but the
first scene's `start_time` is 0 exactly in the no-boundary case (the
single whole-video scene): whenever at least one boundary was
detected, EVERY returned scene — the first included — starts at a
strictly positive time, so the interval before the first boundary is
not covered. -/
theorem detect_scenes_contiguous (diff : FrameData → FrameData → ℚ)
    (threshold min_scene_duration fps : ℚ) (save_frames : Bool)
    (cb : Option (FrameData → ℕ → ℚ → Option String))
    (frames : List FrameData) (hfps : 0 < fps) :
    detect_scenes diff threshold min_scene_duration fps save_frames cb frames ≠ [] ∧
    List.Chain' sceneAdj
      (detect_scenes diff threshold min_scene_duration fps save_frames cb frames) ∧
    (∃ last, (detect_scenes diff threshold min_scene_duration fps save_frames cb
        frames).getLast? = some last ∧
      last.end_time = some ((frames.length : ℚ) / fps)) ∧
    (detectScenesLoop diff threshold min_scene_duration fps save_frames cb
        frames 0 [] 1 none 0 = [] →
      ∀ s ∈ detect_scenes diff threshold min_scene_duration fps save_frames cb frames,
        s.start_time = 0) ∧
    (detectScenesLoop diff threshold min_scene_duration fps save_frames cb
        frames 0 [] 1 none 0 ≠ [] →
      ∀ s ∈ detect_scenes diff threshold min_scene_duration fps save_frames cb frames,
        0 < s.start_time) := by
  obtain ⟨hchain, hpos⟩ := detectScenesLoop_inv diff threshold min_scene_duration fps
    save_frames cb hfps frames 0 [] 1 none 0 List.chain'_nil (by simp) (by simp)
  by_cases hL : detectScenesLoop diff threshold min_scene_duration fps save_frames cb
      frames 0 [] 1 none 0 = []
  · have hres : detect_scenes diff threshold min_scene_duration fps save_frames cb frames
        = [{ scene_number := 1
             start_time := 0
             end_time := some ((frames.length : ℚ) / fps)
             start_frame := 0
             end_frame := some frames.length
             frame_path := none
             change_score := 0
             description := "No scene changes detected" }] := by
      simp only [detect_scenes]
      rw [if_pos hL]
    rw [hres]
    refine ⟨by simp, List.chain'_singleton _, ⟨_, rfl, rfl⟩, ?_, fun h => absurd hL h⟩
    intro _ s hs
    rw [List.mem_singleton] at hs
    subst hs
    rfl
  · have hres : detect_scenes diff threshold min_scene_duration fps save_frames cb frames
        = updateLastScene (detectScenesLoop diff threshold min_scene_duration fps
            save_frames cb frames 0 [] 1 none 0) ((frames.length : ℚ) / fps)
            frames.length := by
      simp only [detect_scenes]
      rw [if_neg hL]
    rw [hres]
    obtain ⟨last, hgl, hend, _⟩ := updateLastScene_getLast _ ((frames.length : ℚ) / fps)
      frames.length hL
    refine ⟨?_, updateLastScene_chain _ _ _ hchain, ⟨last, hgl, hend⟩,
      fun h => absurd h hL, ?_⟩
    · rw [updateLastScene_eq _ _ _ hL]
      simp
    · intro _ s hs
      rcases updateLastScene_starts _ _ _ s hs with ⟨s0, hs0, he⟩
      rw [he]
      exact hpos s0 hs0

/-- Witness for C1 (amended) on a concrete two-frame stream with a
constant scorer above the threshold: one boundary fires at frame 1. -/
theorem detect_scenes_contiguous_witness :
    (0 : ℚ) < 1 ∧
    detect_scenes (fun _ _ => 50) 30 (1/2) 1 false none
        [[(0,0,0)], [(1,1,1)]] ≠ [] := by
  refine ⟨by norm_num, ?_⟩
  exact (detect_scenes_contiguous (fun _ _ => 50) 30 (1/2) 1 false none
    [[(0,0,0)], [(1,1,1)]] (by norm_num)).1

/-- C1 (counterexample): on a two-frame stream whose frames differ
with score 50 (threshold 30, `min_scene_duration = 1/2`, `fps = 1`), a
boundary fires at frame 1 and `detect_scenes` returns a single scene
whose `start_time` is 1, not 0: the returned list does not start at
time 0. -/
theorem detect_scenes_first_start_not_zero :
    (detect_scenes (fun _ _ => 50) 30 (1/2) 1 false none
        [[(0,0,0)], [(1,1,1)]]).map Scene.start_time = [1] ∧ (1 : ℚ) ≠ 0 := by
  constructor
  · norm_num [detect_scenes, detectScenesLoop, updateLastScene]
  · norm_num

/-! ## Job registry (`web/flask_app.py`)

The process-wide dict `processing_jobs` guarded by `jobs_lock`.  Under
the lock each operation is atomic, so any interleaving of registry
operations on one job is a sequence of these functions applied to the
registry state.  The dict is embedded as an insertion-ordered
association list keyed by job id; `datetime.now().isoformat()`
timestamps are embedded as an abstract clock value passed per
operation. -/

structure JobRecord where
  job_id : String
  created_at : ℕ
  status : String
  progress : ℚ
  message : String
  updated_at : ℕ
  result : Option (List (String × String)) := none
deriving Repr, DecidableEq

abbrev JobRegistry : Type := List (String × JobRecord)

/-- `processing_jobs.get(job_id)` (`get_job_status`, flask_app.py
lines 57-60). -/
def get_job_status (jobs : JobRegistry) (job_id : String) : Option JobRecord :=
  (jobs.find? (fun kv => kv.1 = job_id)).map (·.2)

/-- `update_job_status` (flask_app.py lines 63-81): create the record
if absent (with `created_at = now`), then unconditionally overwrite
`status`, `progress`, `message`, `updated_at`; set `result` only when
a (truthy, i.e. present) result is passed. -/
def update_job_status (jobs : JobRegistry) (job_id : String) (status : String)
    (progress : ℚ) (message : String) (result : Option (List (String × String)))
    (now : ℕ) : JobRegistry :=
  match get_job_status jobs job_id with
  | none =>
    jobs ++ [(job_id,
      { job_id := job_id
        created_at := now
        status := status
        progress := progress
        message := message
        updated_at := now
        result := result })]
  | some old =>
    jobs.map (fun kv =>
      if kv.1 = job_id then
        (kv.1,
          { old with
            status := status
            progress := progress
            message := message
            updated_at := now
            result := match result with | some r => some r | none => old.result })
      else kv)

/-- `cancel_job` (flask_app.py lines 302-312): if the job exists, set
its `status` to `"cancelled"` and its `message`, unconditionally —
there is no check of the current status; otherwise report not-found.
The returned flag is the HTTP success of the endpoint. -/
def cancel_job (jobs : JobRegistry) (job_id : String) : JobRegistry × Bool :=
  match get_job_status jobs job_id with
  | some old =>
    (jobs.map (fun kv =>
      if kv.1 = job_id then
        (kv.1, { old with
                  status := "cancelled"
                  message := "Processing cancelled by user" })
      else kv), true)
  | none => (jobs, false)

theorem find?_append_of_none {α : Type} (l1 l2 : List α) (p : α → Bool)
    (h : l1.find? p = none) : (l1 ++ l2).find? p = l2.find? p := by
  induction l1 with
  | nil => rfl
  | cons a as ih =>
    cases hpa : p a
    · simp only [List.find?, hpa] at h
      simp only [List.cons_append, List.find?, hpa]
      exact ih h
    · simp only [List.find?, hpa] at h
      exact Option.noConfusion h

/-- Replacing the record stored under `id` (keys untouched) maps the
lookup result. -/
theorem get_job_status_map_replace (jobs : JobRegistry) (id : String)
    (new : JobRecord) :
    get_job_status (jobs.map (fun kv => if kv.1 = id then (kv.1, new) else kv)) id
      = (get_job_status jobs id).map (fun _ => new) := by
  unfold get_job_status
  rw [List.find?_map]
  have hcomp : ((fun kv : String × JobRecord => decide (kv.1 = id))
      ∘ (fun kv => if kv.1 = id then (kv.1, new) else kv))
      = fun kv : String × JobRecord => decide (kv.1 = id) := by
    funext kv
    by_cases h : kv.1 = id <;> simp [h]
  rw [hcomp]
  cases hf : jobs.find? (fun kv => decide (kv.1 = id)) with
  | none => simp
  | some kv0 =>
    have hp := List.find?_some hf
    rw [decide_eq_true_eq] at hp
    simp [hp]

/-- C6 (amended): the registry never treats a status as terminal —
`update_job_status` unconditionally overwrites the stored status with
its argument (whatever the current status, `completed`, `failed` or
`cancelled` included), and `cancel_job` on any existing job
unconditionally sets the status to `"cancelled"`. -/
theorem job_status_overwritten (jobs : JobRegistry) (job_id status : String)
    (progress : ℚ) (message : String) (result : Option (List (String × String)))
    (now : ℕ) :
    (get_job_status (update_job_status jobs job_id status progress message result now)
        job_id).map JobRecord.status = some status ∧
    ((get_job_status jobs job_id).isSome →
      (get_job_status (cancel_job jobs job_id).1 job_id).map JobRecord.status
        = some "cancelled") := by
  constructor
  · unfold update_job_status
    rcases hold : get_job_status jobs job_id with _ | old
    · unfold get_job_status at hold ⊢
      rw [Option.map_eq_none'] at hold
      rw [find?_append_of_none _ _ _ hold]
      simp
    · rw [get_job_status_map_replace, hold]
      rfl
  · intro hsome
    rcases hold : get_job_status jobs job_id with _ | old
    · rw [hold] at hsome; simp at hsome
    · unfold cancel_job
      rw [hold]
      rw [get_job_status_map_replace, hold]
      rfl

/-- Witness for C6 (amended) on a concrete one-job registry. -/
theorem job_status_overwritten_witness :
    (get_job_status (update_job_status
        [("j", ⟨"j", 0, "completed", 100, "done", 0, none⟩)]
        "j" "processing" 10 "Transcribing..." none 1) "j").map JobRecord.status
      = some "processing" ∧
    (get_job_status [("j", (⟨"j", 0, "completed", 100, "done", 0, none⟩ : JobRecord))]
        "j").isSome = true ∧
    (get_job_status (cancel_job
        [("j", ⟨"j", 0, "completed", 100, "done", 0, none⟩)] "j").1 "j").map
        JobRecord.status = some "cancelled" := by
  have h := job_status_overwritten
    [("j", ⟨"j", 0, "completed", 100, "done", 0, none⟩)]
    "j" "processing" 10 "Transcribing..." none 1
  exact ⟨h.1, by decide, h.2 (by decide)⟩

/-- C6 (counterexample): terminal states transition further.  A job
whose status is the terminal `"completed"` is moved to `"cancelled"`
by a cancellation request, and a subsequent progress-callback update
moves it again to `"processing"`. -/
theorem job_terminal_not_sticky :
    (get_job_status (update_job_status [] "j" "completed" 100 "done" none 0) "j").map
        JobRecord.status = some "completed" ∧
    (get_job_status (cancel_job
        (update_job_status [] "j" "completed" 100 "done" none 0) "j").1 "j").map
        JobRecord.status = some "cancelled" ∧
    (get_job_status (update_job_status
        ((cancel_job (update_job_status [] "j" "completed" 100 "done" none 0) "j").1)
        "j" "processing" 10 "Segmenting transcript..." none 1) "j").map
        JobRecord.status = some "processing" ∧
    ("cancelled" : String) ≠ "completed" := by
  refine ⟨?_, ?_, ?_, by decide⟩ <;> decide

/-! ## Pipeline orchestrator (`main_app.py`)

`MeetingCaptioningApp.process_video` (lines 92-309) runs the stages in
sequence inside one `try`, catches any exception, and returns a
`PipelineResult`.  Collaborator stages are embedded as `Except` values
in a `StageEnv` (an `.error` is the stage raising), each together with
the artifact paths it writes; the file system is the list of paths
written so far, threaded through the run.  The except-handlers build
the failure result from the exception text and perform no file-system
operation — in particular no deletion.  (The progress callback is
effect-free for this claim: `_update_progress` catches and logs its
failures.)  The section summary/key-point enrichment loop mutates only
section fields and absorbs collaborator failures with the local
fallback, so it is embedded as the pure `segment_by_pauses` result
(the app constructs `TranscriptionSegmenter()` with its defaults
`pause_threshold=2.0`, `max_section_duration=300.0`). -/

structure PipelineResult where
  success : Bool
  session_dir : String
  captioned_video_path : Option String := none
  report_paths : List (String × String) := []
  error : Option String := none
deriving Repr, DecidableEq

/-- The dict returned by `VideoProcessor.process_video`
(`audio_path`, `scenes`), plus the artifact paths that stage wrote
(the extracted audio file and any saved scene frames). -/
structure ProcessingResults where
  audio_path : Option String
  scenes : List Scene
  writes : List String
deriving Repr, DecidableEq

/-- Outcomes of the collaborator stages invoked by
`MeetingCaptioningApp.process_video`, in pipeline order.  `.error e`
embeds the stage raising an exception whose text is `e`. -/
structure StageEnv where
  session_dir : String
  load_video : Except String String
  validate_video : Except String ℚ
  processing : Except String ProcessingResults
  transcribe : Except String (List TranscriptionSegment × String)
  create_srt : List Caption → Except String Unit
  burn : Except String String
  build_report : List TranscriptSection → Except String String
  export_json : Except String Unit
  create_manifest : Except String Unit

/-- The failure result built by the two `except` handlers of
`process_video` (main_app.py lines 296-309): `success=False`, the
session directory, and the exception's text; the file system is left
exactly as the failing run left it. -/
def pipelineFail (session_dir e : String) (fs : List String) :
    PipelineResult × List String :=
  ({ success := false, session_dir := session_dir, error := some e }, fs)

/-- Step 5 of the pipeline (main_app.py lines 222-230): one `Caption`
per transcription segment, with 1-based contiguous indices. -/
def pipelineCaptions (segments : List TranscriptionSegment) : List Caption :=
  segments.enum.map (fun p =>
    { index := p.1 + 1
      start_time := p.2.start
      end_time := p.2.«end»
      text := p.2.text })

/-- `MeetingCaptioningApp.process_video` (main_app.py lines 92-309):
run load → validate → process (audio+scenes) → audio checks →
transcribe (writes `transcript.txt`) → segment → captions → SRT →
optional burn-in → report → JSON export → manifest; any stage `.error`
aborts through the except handler. -/
def process_video (env : StageEnv) (burn_captions : Bool) (fs0 : List String) :
    PipelineResult × List String :=
  match env.load_video with
  | .error e => pipelineFail env.session_dir e fs0
  | .ok _video_path =>
    match env.validate_video with
    | .error e => pipelineFail env.session_dir e fs0
    | .ok _duration =>
      match env.processing with
      | .error e => pipelineFail env.session_dir e fs0
      | .ok pr =>
        let fs1 := fs0 ++ pr.writes
        match pr.audio_path with
        | none => pipelineFail env.session_dir
            ("Audio extraction failed. The video may not have an audio track, "
              ++ "or the audio extraction process failed. Please check the video file.")
            fs1
        | some audio_path =>
          if audio_path ∈ fs1 then
            match env.transcribe with
            | .error e => pipelineFail env.session_dir e fs1
            | .ok (segments, _full_transcript) =>
              let fs2 := fs1 ++ [env.session_dir ++ "/audio/transcript.txt"]
              let sections := segment_by_pauses 2 300 segments
              let captions := pipelineCaptions segments
              match env.create_srt captions with
              | .error e => pipelineFail env.session_dir e fs2
              | .ok _ =>
                let fs3 := fs2 ++ [env.session_dir ++ "/captions/captions.srt"]
                match (if burn_captions then
                    match env.burn with
                    | .error e => Except.error e
                    | .ok p => Except.ok (some p, fs3 ++ [p])
                  else Except.ok (none, fs3) :
                    Except String (Option String × List String)) with
                | .error e => pipelineFail env.session_dir e fs3
                | .ok (actual_output_path, fs4) =>
                  match env.build_report sections with
                  | .error e => pipelineFail env.session_dir e fs4
                  | .ok _report =>
                    match env.export_json with
                    | .error e => pipelineFail env.session_dir e fs4
                    | .ok _ =>
                      let fs5 := fs4 ++ [env.session_dir ++ "/reports/report.json"]
                      match env.create_manifest with
                      | .error e => pipelineFail env.session_dir e fs5
                      | .ok _ =>
                        ({ success := true
                           session_dir := env.session_dir
                           captioned_video_path := actual_output_path
                           report_paths :=
                             [("json", env.session_dir ++ "/reports/report.json")] },
                          fs5 ++ [env.session_dir ++ "/manifest.json"])
          else
            pipelineFail env.session_dir
              ("Audio file not found after extraction: " ++ audio_path
                ++ ". The audio extraction may have failed.")
              fs1

/-- C7: error handling of `process_video`.  (1) The file system only
grows — no path is deleted on any run, the failure paths included, so
the session directory and every artifact produced before a failure is
preserved.  (2) Whenever the run ends with `success = False`, the
result's error message is populated.  (3) In particular, when every
stage before transcription succeeds and the transcription stage
raises, the run terminates with `success = False`, the raised message
as its error, and the file system exactly as the earlier stages left
it (the session prefix plus the audio/frame artifacts). -/
theorem process_video_failure_handling (env : StageEnv) (burn_captions : Bool)
    (fs0 : List String) :
    fs0 <+: (process_video env burn_captions fs0).2 ∧
    ((process_video env burn_captions fs0).1.success = false →
      ((process_video env burn_captions fs0).1.error).isSome = true) ∧
    (∀ e pr audio_path,
      (∃ vp, env.load_video = .ok vp) →
      (∃ d, env.validate_video = .ok d) →
      env.processing = .ok pr →
      pr.audio_path = some audio_path →
      audio_path ∈ fs0 ++ pr.writes →
      env.transcribe = .error e →
      (process_video env burn_captions fs0).1.success = false ∧
      (process_video env burn_captions fs0).1.error = some e ∧
      (process_video env burn_captions fs0).2 = fs0 ++ pr.writes) := by
  have step : ∀ (a b : List String), fs0 <+: a → fs0 <+: a ++ b :=
    fun a b h => h.trans (List.prefix_append a b)
  have main : fs0 <+: (process_video env burn_captions fs0).2 ∧
      ((process_video env burn_captions fs0).1.success = false →
        ((process_video env burn_captions fs0).1.error).isSome = true) := by
    unfold process_video
    rcases hl : env.load_video with e | vp
    · exact ⟨List.prefix_refl fs0, fun _ => rfl⟩
    dsimp only
    rcases hv : env.validate_video with e | d
    · exact ⟨List.prefix_refl fs0, fun _ => rfl⟩
    dsimp only
    rcases hp : env.processing with e | pr
    · exact ⟨List.prefix_refl fs0, fun _ => rfl⟩
    dsimp only
    have h1 : fs0 <+: fs0 ++ pr.writes := step _ _ (List.prefix_refl fs0)
    rcases hap : pr.audio_path with _ | audio_path
    · exact ⟨h1, fun _ => rfl⟩
    dsimp only
    by_cases hmem : audio_path ∈ fs0 ++ pr.writes
    case neg => rw [if_neg hmem]; exact ⟨h1, fun _ => rfl⟩
    rw [if_pos hmem]
    rcases ht : env.transcribe with e | st
    · exact ⟨h1, fun _ => rfl⟩
    obtain ⟨segments, full_transcript⟩ := st
    dsimp only
    have h2 : fs0 <+: fs0 ++ pr.writes ++ [env.session_dir ++ "/audio/transcript.txt"] :=
      step _ _ h1
    rcases hsrt : env.create_srt (pipelineCaptions segments) with e | u
    · exact ⟨h2, fun _ => rfl⟩
    dsimp only
    have h3 : fs0 <+: fs0 ++ pr.writes ++ [env.session_dir ++ "/audio/transcript.txt"]
        ++ [env.session_dir ++ "/captions/captions.srt"] := step _ _ h2
    cases burn_captions with
    | false =>
      rcases hr : env.build_report (segment_by_pauses 2 300 segments) with e | rep
      · exact ⟨h3, fun _ => rfl⟩
      dsimp only
      rcases hj : env.export_json with e | u2
      · exact ⟨h3, fun _ => rfl⟩
      dsimp only
      rcases hm : env.create_manifest with e | u3
      · exact ⟨step _ _ h3, fun _ => rfl⟩
      exact ⟨step _ _ (step _ _ h3), fun h => Bool.noConfusion h⟩
    | true =>
      rcases hb : env.burn with e | p
      · exact ⟨h3, fun _ => rfl⟩
      dsimp only
      have h4 : fs0 <+: fs0 ++ pr.writes ++ [env.session_dir ++ "/audio/transcript.txt"]
          ++ [env.session_dir ++ "/captions/captions.srt"] ++ [p] := step _ _ h3
      rcases hr : env.build_report (segment_by_pauses 2 300 segments) with e | rep
      · exact ⟨h4, fun _ => rfl⟩
      dsimp only
      rcases hj : env.export_json with e | u2
      · exact ⟨h4, fun _ => rfl⟩
      dsimp only
      rcases hm : env.create_manifest with e | u3
      · exact ⟨step _ _ h4, fun _ => rfl⟩
      exact ⟨step _ _ (step _ _ h4), fun h => Bool.noConfusion h⟩
  refine ⟨main.1, main.2, ?_⟩
  intro e pr audio_path hl hv hp hap hmem ht
  obtain ⟨vp, hl⟩ := hl
  obtain ⟨d, hv⟩ := hv
  unfold process_video
  rw [hl, hv, hp]
  dsimp only
  rw [hap]
  dsimp only
  rw [if_pos hmem, ht]
  exact ⟨rfl, rfl, rfl⟩

/-- A concrete stage environment whose transcription stage raises
while every earlier stage succeeds, used to witness C7. -/
def transcriptionFailureEnv : StageEnv :=
  { session_dir := "output/session_1"
    load_video := .ok "video.mp4"
    validate_video := .ok 10
    processing := .ok
      { audio_path := some "output/session_1/audio/audio.wav"
        scenes := []
        writes := ["output/session_1/audio/audio.wav"] }
    transcribe := .error "Transcription failed: Whisper engine unavailable"
    create_srt := fun _ => .ok ()
    burn := .ok "output/session_1/video/video_captioned.mp4"
    build_report := fun _ => .ok "report"
    export_json := .ok ()
    create_manifest := .ok () }

/-- Witness for C7: in `transcriptionFailureEnv` the run fails with
the transcription stage's message, and the session directory entry and
the extracted audio artifact are still present. -/
theorem process_video_failure_witness :
    (process_video transcriptionFailureEnv true ["output/session_1"]).1.success
        = false ∧
    (process_video transcriptionFailureEnv true ["output/session_1"]).1.error
        = some "Transcription failed: Whisper engine unavailable" ∧
    (process_video transcriptionFailureEnv true ["output/session_1"]).2
        = ["output/session_1", "output/session_1/audio/audio.wav"] :=
  (process_video_failure_handling transcriptionFailureEnv true
      ["output/session_1"]).2.2
    "Transcription failed: Whisper engine unavailable"
    { audio_path := some "output/session_1/audio/audio.wav"
      scenes := []
      writes := ["output/session_1/audio/audio.wav"] }
    "output/session_1/audio/audio.wav"
    ⟨"video.mp4", rfl⟩ ⟨10, rfl⟩ rfl rfl (by decide) rfl

/-! ## Frame-difference scorer
(`SceneDetector._calculate_frame_difference`, scene_detector.py lines
206-248)

The scorer converts both frames to grayscale (`cv2.cvtColor
BGR2GRAY`), then combines three signals with weights 0.3 / 0.4 / 0.3:
the mean-squared pixel difference normalized by 100 and clamped at 100;
`(1 - cv2.compareHist(..., HISTCMP_CORREL)) * 100` over the 256-bin
grayscale histograms; and the fraction of positions where the two
Canny edge maps disagree, times 100.  The Canny detector itself is an
external OpenCV routine and enters the embedding as the parameter
`canny`; all bound statements below hold for every such function.
Pixel values are 8-bit; OpenCV's grayscale conversion is the
fixed-point `(B*1868 + G*9617 + R*4899 + 2^13) >> 14`.  The histogram
correlation divides by a square root, so it lives in `ℝ`; OpenCV
returns the raw numerator when the variance product vanishes. -/

/-- `cv2.cvtColor(..., cv2.COLOR_BGR2GRAY)` on one BGR pixel:
OpenCV's fixed-point luma with coefficients `B2Y=1868, G2Y=9617,
R2Y=4899` and shift 14. -/
def cvtColorBGR2GRAY (p : ℕ × ℕ × ℕ) : ℕ :=
  (1868 * p.1 + 9617 * p.2.1 + 4899 * p.2.2 + 8192) / 16384

def grayFrame (f : FrameData) : List ℕ := f.map cvtColorBGR2GRAY

/-- `np.mean((gray1.astype(float) - gray2.astype(float)) ** 2)`. -/
def mseValue (g1 g2 : List ℕ) : ℚ :=
  (List.zipWith (fun (a b : ℕ) => ((a : ℚ) - (b : ℚ)) ^ 2) g1 g2).sum / g1.length

/-- `mse_score = min(100, mse / 100)`. -/
def mseScore (f1 f2 : FrameData) : ℚ :=
  min 100 (mseValue (grayFrame f1) (grayFrame f2) / 100)

/-- `cv2.calcHist([gray], [0], None, [256], [0, 256])`: the count of
pixels in each of the 256 one-wide bins. -/
def calcHist (g : List ℕ) (i : ℕ) : ℕ := g.count i

/-- Per-bin mean of a 256-bin histogram, as `cv2.compareHist` uses. -/
def histMean (h : ℕ → ℕ) : ℚ := (∑ i in Finset.range 256, (h i : ℚ)) / 256

/-- Numerator of `HISTCMP_CORREL`: `Σ (h1-mean1)(h2-mean2)`. -/
def histCov (h1 h2 : ℕ → ℕ) : ℚ :=
  ∑ i in Finset.range 256, ((h1 i : ℚ) - histMean h1) * ((h2 i : ℚ) - histMean h2)

/-- One factor of the denominator of `HISTCMP_CORREL`. -/
def histVar (h : ℕ → ℕ) : ℚ :=
  ∑ i in Finset.range 256, ((h i : ℚ) - histMean h) ^ 2

/-- `cv2.compareHist(h1, h2, cv2.HISTCMP_CORREL)`:
`cov / sqrt(var1*var2)`, except that OpenCV skips the division (and
returns the raw numerator) when the denominator vanishes. -/
noncomputable def histCorrel (h1 h2 : ℕ → ℕ) : ℝ :=
  if histVar h1 * histVar h2 = 0 then (histCov h1 h2 : ℝ)
  else (histCov h1 h2 : ℝ) / Real.sqrt ((histVar h1 * histVar h2 : ℚ) : ℝ)

/-- `hist_score = (1 - cv2.compareHist(hist1, hist2, HISTCMP_CORREL)) * 100`. -/
noncomputable def histScore (f1 f2 : FrameData) : ℝ :=
  (1 - histCorrel (calcHist (grayFrame f1)) (calcHist (grayFrame f2))) * 100

/-- `edge_diff = np.sum(edges1 != edges2) / edges1.size * 100`. -/
def edgeDiffValue (e1 e2 : List Bool) : ℚ :=
  ((List.zipWith (fun a b => a != b) e1 e2).count true : ℚ) / e1.length * 100

/-- The edge-map disagreement signal, with the edge maps produced by
the external Canny detector. -/
def edgeScore (canny : List ℕ → List Bool) (f1 f2 : FrameData) : ℚ :=
  edgeDiffValue (canny (grayFrame f1)) (canny (grayFrame f2))

/-- `SceneDetector._calculate_frame_difference` (lines 206-248):
`combined_score = mse_score * 0.3 + hist_score * 0.4 + edge_diff * 0.3`. -/
noncomputable def calculate_frame_difference (canny : List ℕ → List Bool)
    (frame1 frame2 : FrameData) : ℝ :=
  (mseScore frame1 frame2 : ℝ) * 0.3 + histScore frame1 frame2 * 0.4
    + (edgeScore canny frame1 frame2 : ℝ) * 0.3

theorem sum_zipWith_sq_nonneg (g1 : List ℕ) :
    ∀ g2 : List ℕ,
      0 ≤ (List.zipWith (fun (a b : ℕ) => ((a : ℚ) - (b : ℚ)) ^ 2) g1 g2).sum := by
  induction g1 with
  | nil => intro g2; simp
  | cons a as ih =>
    intro g2
    cases g2 with
    | nil => simp
    | cons b bs =>
      rw [List.zipWith_cons_cons, List.sum_cons]
      have h1 := sq_nonneg ((a : ℚ) - (b : ℚ))
      have h2 := ih bs
      linarith

theorem mseScore_bounds (f1 f2 : FrameData) :
    0 ≤ mseScore f1 f2 ∧ mseScore f1 f2 ≤ 100 := by
  constructor
  · apply le_min (by norm_num)
    apply div_nonneg _ (by norm_num)
    unfold mseValue
    exact div_nonneg (sum_zipWith_sq_nonneg _ _) (Nat.cast_nonneg _)
  · exact min_le_left _ _

theorem edgeDiffValue_bounds (e1 e2 : List Bool) :
    0 ≤ edgeDiffValue e1 e2 ∧ edgeDiffValue e1 e2 ≤ 100 := by
  unfold edgeDiffValue
  constructor
  · exact mul_nonneg (div_nonneg (Nat.cast_nonneg _) (Nat.cast_nonneg _)) (by norm_num)
  · rcases Nat.eq_zero_or_pos e1.length with hl | hl
    · rw [hl]
      norm_num
    · have hcount : (List.zipWith (fun a b => a != b) e1 e2).count true ≤ e1.length := by
        calc (List.zipWith (fun a b => a != b) e1 e2).count true
            ≤ (List.zipWith (fun a b => a != b) e1 e2).length := List.count_le_length _ _
          _ ≤ e1.length := by rw [List.length_zipWith]; exact min_le_left _ _
      have hdiv : ((List.zipWith (fun a b => a != b) e1 e2).count true : ℚ)
          / e1.length ≤ 1 := by
        rw [div_le_one (by exact_mod_cast hl)]
        exact_mod_cast hcount
      calc ((List.zipWith (fun a b => a != b) e1 e2).count true : ℚ) / e1.length * 100
          ≤ 1 * 100 := by
            apply mul_le_mul_of_nonneg_right hdiv (by norm_num)
        _ = 100 := by norm_num

theorem histVar_nonneg (h : ℕ → ℕ) : 0 ≤ histVar h :=
  Finset.sum_nonneg (fun _ _ => sq_nonneg _)

theorem histCorrel_bounds (h1 h2 : ℕ → ℕ) :
    -1 ≤ histCorrel h1 h2 ∧ histCorrel h1 h2 ≤ 1 := by
  have hcs : (histCov h1 h2) ^ 2 ≤ histVar h1 * histVar h2 := by
    unfold histCov histVar histMean
    exact Finset.sum_mul_sq_le_sq_mul_sq _ _ _
  unfold histCorrel
  by_cases hz : histVar h1 * histVar h2 = 0
  · rw [if_pos hz]
    have hle : (histCov h1 h2) ^ 2 ≤ 0 := hz ▸ hcs
    have hc0 : histCov h1 h2 = 0 := by
      have := sq_nonneg (histCov h1 h2)
      nlinarith
    rw [hc0]
    norm_num
  · rw [if_neg hz]
    have hpos : (0 : ℚ) < histVar h1 * histVar h2 :=
      lt_of_le_of_ne (mul_nonneg (histVar_nonneg h1) (histVar_nonneg h2)) (Ne.symm hz)
    have hposR : (0 : ℝ) < ((histVar h1 * histVar h2 : ℚ) : ℝ) := by exact_mod_cast hpos
    have hsqrtpos : 0 < Real.sqrt ((histVar h1 * histVar h2 : ℚ) : ℝ) :=
      Real.sqrt_pos.mpr hposR
    have habs : |(histCov h1 h2 : ℝ)| ≤ Real.sqrt ((histVar h1 * histVar h2 : ℚ) : ℝ) := by
      rw [← Real.sqrt_sq_eq_abs]
      apply Real.sqrt_le_sqrt
      exact_mod_cast hcs
    rw [abs_le] at habs
    constructor
    · rw [le_div_iff₀ hsqrtpos]
      linarith [habs.1]
    · rw [div_le_one hsqrtpos]
      exact habs.2

theorem histScore_bounds (f1 f2 : FrameData) :
    0 ≤ histScore f1 f2 ∧ histScore f1 f2 ≤ 200 := by
  obtain ⟨hlo, hhi⟩ := histCorrel_bounds (calcHist (grayFrame f1)) (calcHist (grayFrame f2))
  unfold histScore
  constructor <;> nlinarith

/-- C5 (amended): for every edge detector and every pair of frames,
the combined score is the weighted sum `0.3·mse + 0.4·hist + 0.3·edge`
where the mean-squared-difference signal and the edge-disagreement
signal each lie in `[0, 100]`, but the histogram signal
`(1 - correlation)·100` is NOT clamped to `[0, 100]`: it lies in
`[0, 200]` (the correlation lies in `[-1, 1]`), so the combined score
lies in `[0, 140]` and can exceed 100. -/
theorem calculate_frame_difference_decomposed (canny : List ℕ → List Bool)
    (f1 f2 : FrameData) :
    calculate_frame_difference canny f1 f2
      = (mseScore f1 f2 : ℝ) * 0.3 + histScore f1 f2 * 0.4
        + (edgeScore canny f1 f2 : ℝ) * 0.3 ∧
    0 ≤ mseScore f1 f2 ∧ mseScore f1 f2 ≤ 100 ∧
    0 ≤ edgeScore canny f1 f2 ∧ edgeScore canny f1 f2 ≤ 100 ∧
    0 ≤ histScore f1 f2 ∧ histScore f1 f2 ≤ 200 ∧
    0 ≤ calculate_frame_difference canny f1 f2 ∧
    calculate_frame_difference canny f1 f2 ≤ 140 := by
  obtain ⟨hm0, hm1⟩ := mseScore_bounds f1 f2
  obtain ⟨he0, he1⟩ := edgeDiffValue_bounds (canny (grayFrame f1)) (canny (grayFrame f2))
  obtain ⟨hh0, hh1⟩ := histScore_bounds f1 f2
  have hm0R : (0 : ℝ) ≤ (mseScore f1 f2 : ℝ) := by exact_mod_cast hm0
  have hm1R : (mseScore f1 f2 : ℝ) ≤ 100 := by exact_mod_cast hm1
  have he0R : (0 : ℝ) ≤ (edgeScore canny f1 f2 : ℝ) := by exact_mod_cast he0
  have he1R : (edgeScore canny f1 f2 : ℝ) ≤ 100 := by exact_mod_cast he1
  refine ⟨rfl, hm0, hm1, he0, he1, hh0, hh1, ?_, ?_⟩ <;>
    unfold calculate_frame_difference <;> nlinarith

/-! ### A concrete frame pair on which the scorer exceeds 100

`blackFrame` is 255 pixels of pure black; `rampFrame` has one pixel of
each gray level 1..255.  Their histograms are exactly
anti-correlated (`HISTCMP_CORREL = -1`), so the histogram signal is
`(1 - (-1))·100 = 200`, the mean-squared difference saturates its
clamp at 100, and the combined score is at least
`0.3·100 + 0.4·200 = 110 > 100` whatever the edge signal. -/

def blackFrame : FrameData := List.replicate 255 (0, 0, 0)

def rampFrame : FrameData := (List.range' 1 255).map (fun v => (v, v, v))

theorem cvtColor_diag (v : ℕ) : cvtColorBGR2GRAY (v, v, v) = v := by
  unfold cvtColorBGR2GRAY
  have h : 1868 * v + 9617 * v + 4899 * v + 8192 = 8192 + 16384 * v := by ring
  rw [h, Nat.add_mul_div_left 8192 v (by norm_num)]
  norm_num

theorem grayFrame_black : grayFrame blackFrame = List.replicate 255 0 := by
  unfold grayFrame blackFrame
  rw [List.map_replicate, cvtColor_diag]

theorem grayFrame_ramp : grayFrame rampFrame = List.range' 1 255 := by
  unfold grayFrame rampFrame
  rw [List.map_map]
  have h : ∀ v ∈ List.range' 1 255,
      (cvtColorBGR2GRAY ∘ fun v => (v, v, v)) v = id v :=
    fun v _ => cvtColor_diag v
  rw [List.map_congr_left h, List.map_id]

theorem calcHist_black (i : ℕ) :
    calcHist (grayFrame blackFrame) i = if i = 0 then 255 else 0 := by
  rw [grayFrame_black]
  unfold calcHist
  by_cases h : i = 0
  · subst h
    rw [if_pos rfl]
    exact List.count_replicate_self 0 255
  · rw [if_neg h]
    apply List.count_eq_zero_of_not_mem
    intro hm
    exact h (List.eq_of_mem_replicate hm)

theorem calcHist_ramp (i : ℕ) (hi : i < 256) :
    calcHist (grayFrame rampFrame) i = if i = 0 then 0 else 1 := by
  rw [grayFrame_ramp]
  unfold calcHist
  by_cases h : i = 0
  · subst h
    rw [if_pos rfl]
    apply List.count_eq_zero_of_not_mem
    intro hm
    rw [List.mem_range'_1] at hm
    exact absurd hm.1 (by norm_num)
  · rw [if_neg h]
    apply List.count_eq_one_of_mem (List.nodup_range' 1 255)
    rw [List.mem_range'_1]
    exact ⟨Nat.one_le_iff_ne_zero.mpr h, hi⟩

theorem sum_ite_zero_range256 (c1 c2 : ℚ) :
    (∑ i in Finset.range 256, if i = 0 then c1 else c2) = c1 + 255 * c2 := by
  have h : ∀ i ∈ Finset.range 256,
      (if i = 0 then c1 else c2) = c2 + (if i = 0 then c1 - c2 else 0) := by
    intro i _
    by_cases hi : i = 0 <;> simp [hi]
  rw [Finset.sum_congr rfl h, Finset.sum_add_distrib, Finset.sum_const,
    Finset.card_range, Finset.sum_ite_eq' (Finset.range 256) 0 (fun _ => c1 - c2)]
  rw [if_pos (Finset.mem_range.mpr (by norm_num))]
  ring

theorem histMean_black : histMean (calcHist (grayFrame blackFrame)) = 255 / 256 := by
  unfold histMean
  have h : ∀ i ∈ Finset.range 256,
      ((calcHist (grayFrame blackFrame) i : ℕ) : ℚ) = if i = 0 then 255 else 0 := by
    intro i _
    rw [calcHist_black i]
    by_cases hi : i = 0 <;> simp [hi]
  rw [Finset.sum_congr rfl h, sum_ite_zero_range256]
  norm_num

theorem histMean_ramp : histMean (calcHist (grayFrame rampFrame)) = 255 / 256 := by
  unfold histMean
  have h : ∀ i ∈ Finset.range 256,
      ((calcHist (grayFrame rampFrame) i : ℕ) : ℚ) = if i = 0 then 0 else 1 := by
    intro i hi
    rw [calcHist_ramp i (Finset.mem_range.mp hi)]
    by_cases h0 : i = 0 <;> simp [h0]
  rw [Finset.sum_congr rfl h, sum_ite_zero_range256]
  norm_num

theorem histCov_black_ramp :
    histCov (calcHist (grayFrame blackFrame)) (calcHist (grayFrame rampFrame))
      = -(65025 / 256) := by
  unfold histCov
  rw [histMean_black, histMean_ramp]
  have h : ∀ i ∈ Finset.range 256,
      (((calcHist (grayFrame blackFrame) i : ℕ) : ℚ) - 255 / 256)
        * (((calcHist (grayFrame rampFrame) i : ℕ) : ℚ) - 255 / 256)
      = if i = 0 then (255 - 255 / 256) * (0 - 255 / 256)
        else (0 - 255 / 256) * (1 - 255 / 256) := by
    intro i hi
    rw [calcHist_black i, calcHist_ramp i (Finset.mem_range.mp hi)]
    by_cases h0 : i = 0 <;> simp [h0]
  rw [Finset.sum_congr rfl h, sum_ite_zero_range256]
  norm_num

theorem histVar_black :
    histVar (calcHist (grayFrame blackFrame)) = 16581375 / 256 := by
  unfold histVar
  rw [histMean_black]
  have h : ∀ i ∈ Finset.range 256,
      (((calcHist (grayFrame blackFrame) i : ℕ) : ℚ) - 255 / 256) ^ 2
      = if i = 0 then (255 - 255 / 256) ^ 2 else (0 - 255 / 256) ^ 2 := by
    intro i _
    rw [calcHist_black i]
    by_cases h0 : i = 0 <;> simp [h0]
  rw [Finset.sum_congr rfl h, sum_ite_zero_range256]
  norm_num

theorem histVar_ramp :
    histVar (calcHist (grayFrame rampFrame)) = 255 / 256 := by
  unfold histVar
  rw [histMean_ramp]
  have h : ∀ i ∈ Finset.range 256,
      (((calcHist (grayFrame rampFrame) i : ℕ) : ℚ) - 255 / 256) ^ 2
      = if i = 0 then (0 - 255 / 256) ^ 2 else (1 - 255 / 256) ^ 2 := by
    intro i hi
    rw [calcHist_ramp i (Finset.mem_range.mp hi)]
    by_cases h0 : i = 0 <;> simp [h0]
  rw [Finset.sum_congr rfl h, sum_ite_zero_range256]
  norm_num

theorem histCorrel_black_ramp :
    histCorrel (calcHist (grayFrame blackFrame)) (calcHist (grayFrame rampFrame))
      = -1 := by
  unfold histCorrel
  rw [histVar_black, histVar_ramp, histCov_black_ramp]
  rw [if_neg (by norm_num)]
  have hcast : (((16581375 / 256 : ℚ) * (255 / 256) : ℚ) : ℝ)
      = ((65025 / 256 : ℝ)) ^ 2 := by
    push_cast
    norm_num
  rw [hcast, Real.sqrt_sq (by norm_num)]
  push_cast
  norm_num

theorem histScore_black_ramp : histScore blackFrame rampFrame = 200 := by
  unfold histScore
  rw [histCorrel_black_ramp]
  norm_num

theorem zipWith_replicate_left {α β γ : Type} (f : α → β → γ) (c : α) :
    ∀ (l : List β) (n : ℕ), l.length = n →
      List.zipWith f (List.replicate n c) l = l.map (f c) := by
  intro l
  induction l with
  | nil => intro n _; simp
  | cons b bs ih =>
    intro n hn
    cases n with
    | zero => exact absurd hn (by simp)
    | succ m =>
      rw [List.replicate_succ, List.zipWith_cons_cons, List.map_cons,
        ih m (by simpa using hn)]

set_option maxRecDepth 8000 in
theorem mseScore_black_ramp : mseScore blackFrame rampFrame = 100 := by
  unfold mseScore mseValue
  rw [grayFrame_black, grayFrame_ramp]
  rw [zipWith_replicate_left _ 0 (List.range' 1 255) 255 (by simp)]
  have h : ∀ v ∈ List.range' 1 255,
      (fun (b : ℕ) => (((0 : ℕ) : ℚ) - (b : ℚ)) ^ 2) v
        = (fun (b : ℕ) => ((b ^ 2 : ℕ) : ℚ)) v := by
    intro v _
    push_cast
    ring
  rw [List.map_congr_left h]
  rw [show (fun (b : ℕ) => ((b ^ 2 : ℕ) : ℚ)) = (fun (n : ℕ) => (n : ℚ)) ∘ (fun b => b ^ 2)
    from rfl]
  rw [← List.map_map, ← Nat.cast_list_sum]
  rw [show ((List.range' 1 255).map (fun b => b ^ 2)).sum = 5559680 from by decide]
  rw [List.length_replicate]
  rw [min_eq_left (by norm_num)]

theorem edgeScore_empty_canny :
    edgeScore (fun _ => []) blackFrame rampFrame = 0 := by
  unfold edgeScore edgeDiffValue
  norm_num

theorem calculate_frame_difference_black_ramp :
    calculate_frame_difference (fun _ => []) blackFrame rampFrame = 110 := by
  unfold calculate_frame_difference
  rw [mseScore_black_ramp, histScore_black_ramp, edgeScore_empty_canny]
  norm_num

/-- C5 (counterexample): the claim fails on a concrete same-dimension
frame pair — 255 black pixels against one pixel of each gray level
1..255.  The histogram signal is 200 (not clamped to `[0, 100]`) and
the combined score is 110, outside `[0, 100]`. -/
theorem calculate_frame_difference_not_clamped :
    ¬ (∀ (canny : List ℕ → List Bool) (f1 f2 : FrameData),
        f1.length = f2.length →
        calculate_frame_difference canny f1 f2 ≤ 100 ∧
          histScore f1 f2 ≤ 100) := by
  intro h
  have hlen : blackFrame.length = rampFrame.length := by
    unfold blackFrame rampFrame
    rw [List.length_replicate, List.length_map, List.length_range']
  have hc := h (fun _ => []) blackFrame rampFrame hlen
  rw [calculate_frame_difference_black_ramp] at hc
  exact absurd hc.1 (by norm_num)

end MeetingCaptioning
